import Mathlib

/-!
Verification development for the stock-weather-ai repository.

The definitions below are a shallow embedding of the Python sources:

* `src/agents/news.py` — `get_score_threshold_or_top_k` (relevance filter);
* `src/agents/agent.py` — `Agent.act`'s report-file naming and serialization;
* `src/api.py` — `DATE_PATTERN`, `_scan_reports`, `_latest_date`, `get_reports`;
* `src/agents/requested_tickers.py` — `get_top_movers`;
* `src/toolkit/cache.py` — `timestamp_key`, `_load_cache`, `_is_valid`, `file_cache`;
* `src/toolkit/proxy_pool.py` — `_get_proxies`, `get_proxy`.

Pure functions become Lean functions; filesystem and network inputs become
explicit arguments (a directory listing is a list of `(filename, raw content)`
pairs, a scraped HTML table is a list of rows, wall-clock time is an explicit
rational argument).  Python `float` time values are modelled as `ℚ`; JSON
numbers are modelled exactly as `ℚ`.  Calls into the Python standard library
that the repository relies on (`json.load`/`json.loads`, `re`,
`datetime.strptime`) are modelled concretely below; `time.strptime` composed
with `time.mktime` (local-time dependent) is abstracted as a parameter.
-/

/- ### Basic character helpers -/

/-- ASCII decimal digit, as matched by `[0-9]` and `\d` in the source regexes
(the Unicode digits that Python's `re` module would additionally accept under
`\d` are outside the model's input alphabet). -/
def isDigitCh (c : Char) : Bool := decide (48 ≤ c.toNat ∧ c.toNat ≤ 57)

/-- Numeric value of an ASCII digit. -/
def digitVal (c : Char) : Nat := c.toNat - 48

/-- Value of a big-endian ASCII digit string. -/
def digitsVal (ds : List Char) : Nat := ds.foldl (fun a c => a * 10 + digitVal c) 0

/-- Character of the class `[A-Z0-9]` used by `DATE_PATTERN` in `src/api.py`
for the ticker portion of a report filename. -/
def isTickerChar (c : Char) : Bool :=
  decide ((65 ≤ c.toNat ∧ c.toNat ≤ 90) ∨ (48 ≤ c.toNat ∧ c.toNat ≤ 57))

/-- Lexicographic comparison of character lists by code point; this is how
Python compares the (same-directory) `Path` objects that `sorted` orders in
`get_reports`. -/
def lexLe : List Char → List Char → Bool
  | [], _ => true
  | _ :: _, [] => false
  | a :: as, b :: bs =>
    if a.toNat < b.toNat then true
    else if a.toNat = b.toNat then lexLe as bs
    else false

/- ### A model of Python's strict JSON reader (`json.load` / `json.loads`)

`src/api.py` reads report files with `json.load`, and the claims about the
producer/consumer contract of report files are settled against this model.
The grammar follows CPython's `json` decoder in its default (strict) mode:
RFC-style values plus the `NaN` / `Infinity` / `-Infinity` constants, raw
control characters forbidden inside strings, object keys double-quoted,
whitespace = space/tab/newline/carriage-return, and no trailing data. -/

inductive JsonVal where
  | jnull : JsonVal
  | jbool (b : Bool) : JsonVal
  | jnum (q : ℚ) : JsonVal
  /-- The non-finite float constants `NaN`, `Infinity`, `-Infinity`. -/
  | jnonfinite (neg : Bool) (isNan : Bool) : JsonVal
  | jstr (s : List Char) : JsonVal
  | jarr (elems : List JsonVal) : JsonVal
  | jobj (fields : List (List Char × JsonVal)) : JsonVal

/-- JSON whitespace skip. -/
def skipWs : List Char → List Char
  | c :: cs => if c = ' ' ∨ c = '\t' ∨ c = '\n' ∨ c = '\r' then skipWs cs else c :: cs
  | [] => []

/-- Hexadecimal digit value, for `\uXXXX` escapes. -/
def hexVal (c : Char) : Option Nat :=
  if isDigitCh c then some (digitVal c)
  else if 97 ≤ c.toNat ∧ c.toNat ≤ 102 then some (c.toNat - 87)
  else if 65 ≤ c.toNat ∧ c.toNat ≤ 70 then some (c.toNat - 55)
  else none

/-- Parse the remainder of a JSON string after the opening quote, returning
the decoded characters and the unconsumed input. -/
def parseJStr (fuel : Nat) (cs : List Char) : Option (List Char × List Char) :=
  match fuel, cs with
  | 0, _ => none
  | _, [] => none
  | f + 1, c :: rest =>
    if c = '"' then some ([], rest)
    else if c = '\\' then
      match rest with
      | [] => none
      | e :: rest2 =>
        if e = '"' then (parseJStr f rest2).map (fun p => ('"' :: p.1, p.2))
        else if e = '\\' then (parseJStr f rest2).map (fun p => ('\\' :: p.1, p.2))
        else if e = '/' then (parseJStr f rest2).map (fun p => ('/' :: p.1, p.2))
        else if e = 'b' then (parseJStr f rest2).map (fun p => (Char.ofNat 8 :: p.1, p.2))
        else if e = 'f' then (parseJStr f rest2).map (fun p => (Char.ofNat 12 :: p.1, p.2))
        else if e = 'n' then (parseJStr f rest2).map (fun p => ('\n' :: p.1, p.2))
        else if e = 'r' then (parseJStr f rest2).map (fun p => (Char.ofNat 13 :: p.1, p.2))
        else if e = 't' then (parseJStr f rest2).map (fun p => ('\t' :: p.1, p.2))
        else if e = 'u' then
          match rest2 with
          | h1 :: h2 :: h3 :: h4 :: rest3 =>
            match hexVal h1, hexVal h2, hexVal h3, hexVal h4 with
            | some a, some b, some c2, some d =>
              (parseJStr f rest3).map
                (fun p => (Char.ofNat (((a * 16 + b) * 16 + c2) * 16 + d) :: p.1, p.2))
            | _, _, _, _ => none
          | _ => none
        else none
    else if c.toNat < 32 then none
    else (parseJStr f rest).map (fun p => (c :: p.1, p.2))

/-- Maximal run of ASCII digits. -/
def spanDigits (cs : List Char) : List Char × List Char :=
  match cs with
  | c :: rest =>
    if isDigitCh c then
      let p := spanDigits rest
      (c :: p.1, p.2)
    else ([], cs)
  | [] => ([], [])

/-- Parse a JSON number at the head of the input, following CPython's
`NUMBER_RE`: `-?(0|[1-9][0-9]*)(\.[0-9]+)?([eE][-+]?[0-9]+)?`, leftmost
maximal match.  The value is computed exactly in `ℚ`. -/
def parseJNum (cs : List Char) : Option (ℚ × List Char) :=
  let signed : Bool × List Char := match cs with
    | '-' :: r => (true, r)
    | _ => (false, cs)
  match spanDigits signed.2 with
  | ([], _) => none
  | (d :: ds, afterInt) =>
    -- `0` followed by more digits only matches the single `0`
    let intPart : List Char × List Char :=
      if d = '0' ∧ ds ≠ [] then (['0'], ds ++ afterInt) else (d :: ds, afterInt)
    let fracPart : List Char × List Char :=
      match intPart.2 with
      | '.' :: r =>
        match spanDigits r with
        | ([], _) => ([], intPart.2)
        | (fs, r2) => (fs, r2)
      | _ => ([], intPart.2)
    let expPart : Option ℤ × List Char :=
      match fracPart.2 with
      | 'e' :: r =>
        (match r with
         | '+' :: r2 => (match spanDigits r2 with
            | ([], _) => (none, fracPart.2)
            | (es, r3) => (some (digitsVal es : ℤ), r3))
         | '-' :: r2 => (match spanDigits r2 with
            | ([], _) => (none, fracPart.2)
            | (es, r3) => (some (-(digitsVal es : ℤ)), r3))
         | _ => (match spanDigits r with
            | ([], _) => (none, fracPart.2)
            | (es, r3) => (some (digitsVal es : ℤ), r3)))
      | 'E' :: r =>
        (match r with
         | '+' :: r2 => (match spanDigits r2 with
            | ([], _) => (none, fracPart.2)
            | (es, r3) => (some (digitsVal es : ℤ), r3))
         | '-' :: r2 => (match spanDigits r2 with
            | ([], _) => (none, fracPart.2)
            | (es, r3) => (some (-(digitsVal es : ℤ)), r3))
         | _ => (match spanDigits r with
            | ([], _) => (none, fracPart.2)
            | (es, r3) => (some (digitsVal es : ℤ), r3)))
      | _ => (none, fracPart.2)
    let mag : ℚ :=
      (digitsVal intPart.1 : ℚ) + (digitsVal fracPart.1 : ℚ) / (10 : ℚ) ^ fracPart.1.length
    let scaled : ℚ := mag * (10 : ℚ) ^ (expPart.1.getD 0)
    some ((if signed.1 then -scaled else scaled), expPart.2)

mutual

/-- Parse one JSON value (leading whitespace allowed), returning it and the
unconsumed input. -/
def parseJVal (fuel : Nat) (cs : List Char) : Option (JsonVal × List Char) :=
  match fuel with
  | 0 => none
  | f + 1 =>
    match skipWs cs with
    | [] => none
    | 't' :: 'r' :: 'u' :: 'e' :: r => some (.jbool true, r)
    | 'f' :: 'a' :: 'l' :: 's' :: 'e' :: r => some (.jbool false, r)
    | 'n' :: 'u' :: 'l' :: 'l' :: r => some (.jnull, r)
    | 'N' :: 'a' :: 'N' :: r => some (.jnonfinite false true, r)
    | 'I' :: 'n' :: 'f' :: 'i' :: 'n' :: 'i' :: 't' :: 'y' :: r =>
      some (.jnonfinite false false, r)
    | '-' :: 'I' :: 'n' :: 'f' :: 'i' :: 'n' :: 'i' :: 't' :: 'y' :: r =>
      some (.jnonfinite true false, r)
    | '"' :: rest => (parseJStr fuel rest).map (fun p => (.jstr p.1, p.2))
    | '[' :: rest => parseJArr f (skipWs rest)
    | '{' :: rest => parseJObj f (skipWs rest)
    | l => (parseJNum l).map (fun p => (.jnum p.1, p.2))

/-- Parse an array body (input begins after `[`, whitespace already skipped). -/
def parseJArr (fuel : Nat) (cs : List Char) : Option (JsonVal × List Char) :=
  match fuel with
  | 0 => none
  | f + 1 =>
    match cs with
    | ']' :: r => some (.jarr [], r)
    | _ =>
      (parseJVal f cs).bind (fun p =>
        (parseJArrRest f (skipWs p.2)).map (fun q => (.jarr (p.1 :: q.1), q.2)))

/-- Parse the continuation of an array after one element. -/
def parseJArrRest (fuel : Nat) (cs : List Char) : Option (List JsonVal × List Char) :=
  match fuel with
  | 0 => none
  | f + 1 =>
    match cs with
    | ']' :: r => some ([], r)
    | ',' :: r =>
      (parseJVal f r).bind (fun p =>
        (parseJArrRest f (skipWs p.2)).map (fun q => (p.1 :: q.1, q.2)))
    | _ => none

/-- Parse an object body (input begins after the opening brace, whitespace
already skipped); keys must be double-quoted strings. -/
def parseJObj (fuel : Nat) (cs : List Char) : Option (JsonVal × List Char) :=
  match fuel with
  | 0 => none
  | f + 1 =>
    match cs with
    | '}' :: r => some (.jobj [], r)
    | '"' :: rest =>
      (parseJStr fuel rest).bind (fun pk =>
        match skipWs pk.2 with
        | ':' :: r2 =>
          (parseJVal f r2).bind (fun pv =>
            (parseJObjRest f (skipWs pv.2)).map
              (fun q => (.jobj ((pk.1, pv.1) :: q.1), q.2)))
        | _ => none)
    | _ => none

/-- Parse the continuation of an object after one member. -/
def parseJObjRest (fuel : Nat) (cs : List Char) :
    Option (List (List Char × JsonVal) × List Char) :=
  match fuel with
  | 0 => none
  | f + 1 =>
    match cs with
    | '}' :: r => some ([], r)
    | ',' :: r =>
      (match skipWs r with
       | '"' :: rest =>
         (parseJStr fuel rest).bind (fun pk =>
           match skipWs pk.2 with
           | ':' :: r2 =>
             (parseJVal f r2).bind (fun pv =>
               (parseJObjRest f (skipWs pv.2)).map
                 (fun q => ((pk.1, pv.1) :: q.1, q.2)))
           | _ => none)
       | _ => none)
    | _ => none

end

/-- Model of `json.loads` on the full input: one value, optionally surrounded
by whitespace, with no trailing data.  The fuel is an upper bound on nesting
and never binds for the inputs considered in the theorems below. -/
def jsonParse (cs : List Char) : Option JsonVal :=
  match parseJVal (4 * cs.length + 4) cs with
  | some (v, rest) => if skipWs rest = [] then some v else none
  | none => none

/-- Python dictionary lookup `obj[key]` on a parsed JSON value: only objects
support it, and for duplicate keys `json` keeps the last occurrence (dict
insertion overwrites). -/
def jsonGet (v : JsonVal) (k : List Char) : Option JsonVal :=
  match v with
  | .jobj fs => fs.foldl (fun acc p => if p.1 = k then some p.2 else acc) none
  | _ => none

/-- Python truthiness of a value decoded by `json`: `None`, `False`, zero,
the empty string, the empty list and the empty dict are falsy. -/
def jsonTruthy : JsonVal → Bool
  | .jnull => false
  | .jbool b => b
  | .jnum q => decide (q ≠ 0)
  | .jnonfinite _ _ => true
  | .jstr s => !s.isEmpty
  | .jarr xs => !xs.isEmpty
  | .jobj fs => !fs.isEmpty

/- ### `src/agents/news.py` — relevance filter -/

/-- Stable descending insertion by score, modelling
`sorted(filtered_docs, key=lambda x: x[1], reverse=True)`. -/
def insertDescByScore {α : Type} (x : α × ℚ) : List (α × ℚ) → List (α × ℚ)
  | [] => [x]
  | y :: ys => if y.2 ≤ x.2 then x :: y :: ys else y :: insertDescByScore x ys

/-- Stable descending sort by score (second component). -/
def sortDescByScore {α : Type} : List (α × ℚ) → List (α × ℚ)
  | [] => []
  | x :: xs => insertDescByScore x (sortDescByScore xs)

/-- Model of `get_score_threshold_or_top_k` from `src/agents/news.py`
(lines 184-200), including the rebinding of `filtered_docs` to a sort of the
*already-empty* list in the fallback branch.  Scores (cosine similarities,
Python floats) are modelled as `ℚ`. -/
def get_score_threshold_or_top_k {α : Type} (ranked_docs : List (α × ℚ))
    (top_k : ℕ) (score_threshold : ℚ) : List (α × ℚ) :=
  if ranked_docs.isEmpty then []
  else
    let filtered_docs := ranked_docs.filter (fun p => score_threshold ≤ p.2)
    if !filtered_docs.isEmpty then filtered_docs
    else (sortDescByScore filtered_docs).take top_k

/- ### `src/toolkit/cache.py` -/

/-- Model of `timestamp_key(ttl) = int(time.time() // ttl)`: wall-clock time
is the explicit argument `now` (a `ℚ`, modelling the float `time.time()`);
for positive `ttl`, float floor-division followed by `int` is the
mathematical floor. -/
def timestamp_key (now ttl : ℚ) : ℤ := ⌊now / ttl⌋

/-- Model of `_load_cache`: the cache file's state is `none` when the file is
absent or unreadable (`open` raises, caught) and `some raw` when it holds the
text `raw`; a text that is not valid JSON also yields `none`
(`json.load` raises, caught). -/
def _load_cache (raw : Option (List Char)) : Option JsonVal :=
  raw.bind jsonParse

/-- Model of `_is_valid(cache_obj, ttl)`.  The composition of
`time.strptime(s, "%Y-%m-%d %H:%M:%S")` and `time.mktime` (which depends on
the host's local timezone) is abstracted as the parameter `mk`, mapping the
stored text to an epoch value or `none` when `strptime` rejects it.  A
missing `"timestamp"` key, a non-object cache value, or a non-string stored
timestamp all raise inside the `try` and yield `False`. -/
def _is_valid (mk : List Char → Option ℚ) (cache_obj : JsonVal) (now ttl : ℚ) : Bool :=
  match jsonGet cache_obj ("timestamp".toList) with
  | some (.jstr s) =>
    match mk s with
    | some ts => decide (now - ts < ttl)
    | _ => false
  | _ => false

/-- One call through the `file_cache` decorator's `wrapper`
(`src/toolkit/cache.py` lines 46-69).  Inputs: the abstract
`strptime`+`mktime` model `mk`, the current cache-file state `raw`, the
current time `now`, the effective TTL, the value `fresh` the wrapped function
would compute, the formatted current time `nowStr` that would be stored, and
whether the save would succeed (`_save_cache` failures are swallowed).
Output: the value returned to the caller, and the payload written to the
cache file (`none` when the file is left untouched — cache hit or failed
save). -/
def file_cache_run (mk : List Char → Option ℚ) (raw : Option (List Char))
    (now ttl : ℚ) (fresh : JsonVal) (nowStr : List Char) (writeOk : Bool) :
    JsonVal × Option JsonVal :=
  match _load_cache raw with
  | some cached =>
    if jsonTruthy cached && _is_valid mk cached now ttl then
      ((jsonGet cached ("value".toList)).getD .jnull, none)
    else
      (fresh,
       if writeOk then
         some (.jobj [("timestamp".toList, .jstr nowStr), ("value".toList, fresh)])
       else none)
  | none =>
    (fresh,
     if writeOk then
       some (.jobj [("timestamp".toList, .jstr nowStr), ("value".toList, fresh)])
     else none)

/- ### `src/toolkit/proxy_pool.py` -/

/-- Python `int(s)` on a candidate port string, simplified to an optional
sign followed by ASCII digits (the surrounding-whitespace and underscore
liberality of `int` is not modelled; it does not change which ports are
integers in range). -/
def pyParseInt (s : List Char) : Option ℤ :=
  match s with
  | '-' :: ds => if ds ≠ [] ∧ ds.all isDigitCh then some (-(digitsVal ds : ℤ)) else none
  | '+' :: ds => if ds ≠ [] ∧ ds.all isDigitCh then some ((digitsVal ds : ℤ)) else none
  | ds => if ds ≠ [] ∧ ds.all isDigitCh then some ((digitsVal ds : ℤ)) else none

/-- Model of `_is_valid_port`: `int(port)` parses and `0 < port < 65536`. -/
def _is_valid_port (port : List Char) : Bool :=
  match pyParseInt port with
  | some n => decide (0 < n ∧ n < 65536)
  | none => false

/-- Model of `_get_proxies`: the scraped listing is the explicit argument
`rows`, each row the list of its `<td>` cell texts; `_is_valid_ip` (a wrapper
around the standard library's `ipaddress.ip_address`) is abstracted as the
predicate `ipOk`.  Rows with at least two cells whose IP and port validate
contribute `"ip:port"`; the list is truncated to the first 10 entries and
deduplicated into a set (`set(proxy_list[:10])`; Python set iteration order
is unspecified, the model keeps one canonical order — the claims proved below
are order-independent). -/
def _get_proxies (rows : List (List (List Char))) (ipOk : List Char → Bool) :
    List (List Char) :=
  ((rows.filterMap (fun cols =>
      match cols with
      | ip :: port :: _ =>
        if ipOk ip && _is_valid_port port then some (ip ++ ':' :: port) else none
      | _ => none)).take 10).dedup

/-- Model of `get_proxy`: the `n`-th value drawn from
`cycle(pool)` when the pool is non-empty, and from `cycle([None])` — i.e.
`none` forever — when it is empty (`n % 0 = n` makes `get?` return `none`).
The call is total: no exception is ever raised. -/
def get_proxy (pool : List (List Char)) (n : ℕ) : Option (List Char) :=
  pool.get? (n % pool.length)

/- ### `src/agents/requested_tickers.py` — `get_top_movers` -/

/-- A scraped pandas table: named columns and rows of cells, where `none`
models a missing (`NaN`) cell. -/
structure PdTable where
  columns : List String
  rows : List (List (Option String))

/-- The cell of a row at a column index (`none` for `NaN` or absent). -/
def cellAt (row : List (Option String)) (i : ℕ) : Option String :=
  (row.get? i).bind id

/-- Normalization of one side (gainers or losers) in `get_top_movers`: if the
table has `Symbol` and `Name` columns, drop the rows where either is missing
(`dropna(subset=['Symbol', 'Name'])`) and keep `(ticker, name)` records in row
order; otherwise log an error and use the empty list. -/
def moversSide (t : PdTable) : List (String × String) :=
  if "Symbol" ∈ t.columns ∧ "Name" ∈ t.columns then
    t.rows.filterMap (fun r =>
      match cellAt r (t.columns.indexOf "Symbol"), cellAt r (t.columns.indexOf "Name") with
      | some s, some n => some (s, n)
      | _, _ => none)
  else []

structure MarketMovers where
  gainers : List (String × String)
  losers : List (String × String)

/-- Model of `get_top_movers`: the scraping step is the explicit argument —
`none` models `scrape_market_data` failing (caught, `(None, None)`), in which
case the function returns `None`; otherwise both tables are normalized. -/
def get_top_movers (scraped : Option (PdTable × PdTable)) : Option MarketMovers :=
  match scraped with
  | none => none
  | some (g, l) => some ⟨moversSide g, moversSide l⟩

/- ### `src/api.py` — report discovery and `GET /reports` -/

/-- The 10-character shape `[0-9]{4}-[0-9]{2}-[0-9]{2}` of the date group in
`DATE_PATTERN`. -/
def isDateShape (l : List Char) : Bool :=
  match l with
  | [y1, y2, y3, y4, '-', m1, m2, '-', d1, d2] =>
    isDigitCh y1 && isDigitCh y2 && isDigitCh y3 && isDigitCh y4 &&
    isDigitCh m1 && isDigitCh m2 && isDigitCh d1 && isDigitCh d2
  | _ => false

/-- Model of `DATE_PATTERN.match(p.name)` for the files produced by
`REPORTS_DIR.glob("*.json")`, returning the two captured groups.  The regex
`evaluation_([A-Z0-9]+)_([0-9]{4}-[0-9]{2}-[0-9]{2})\.json$` under `re.match`
is anchored at both ends, the date group and the `.json` suffix have fixed
width, and `[A-Z0-9]` excludes `_`, so a name matches exactly when it
decomposes (at length-forced positions) as
`evaluation_` ++ ticker ++ `_` ++ date ++ `.json` with a non-empty
all-`[A-Z0-9]` ticker and a digit-shaped date.  (`$` would also accept one
trailing newline, but such a name cannot come out of `glob("*.json")`.) -/
def splitReportName (name : List Char) : Option (List Char × List Char) :=
  if name.take 11 = ("evaluation_".toList) then
    if 17 ≤ (name.drop 11).length then
      match (name.drop 11).drop ((name.drop 11).length - 16) with
      | '_' :: tail =>
        if tail.drop 10 = (".json".toList) ∧
            (name.drop 11).take ((name.drop 11).length - 16) ≠ [] ∧
            ((name.drop 11).take ((name.drop 11).length - 16)).all isTickerChar ∧
            isDateShape (tail.take 10)
        then some ((name.drop 11).take ((name.drop 11).length - 16), tail.take 10)
        else none
      | _ => none
    else none
  else none

/-- Leap year, as in `datetime`'s proleptic Gregorian calendar. -/
def isLeap (y : ℕ) : Bool := decide ((y % 4 = 0 ∧ y % 100 ≠ 0) ∨ y % 400 = 0)

/-- Days in a month of the proleptic Gregorian calendar. -/
def daysInMonth (y m : ℕ) : ℕ :=
  if m = 2 then (if isLeap y then 29 else 28)
  else if m = 4 ∨ m = 6 ∨ m = 9 ∨ m = 11 then 30
  else 31

/-- Order-preserving numeric encoding of a calendar date: `datetime.date`
values compare chronologically, i.e. lexicographically on (year, month, day),
which this encoding preserves since month and day are below 100. -/
def encodeDate (y m d : ℕ) : ℕ := (y * 100 + m) * 100 + d

/-- The `datetime.date` constructor's validation (raises `ValueError` for
year 0, a month outside 1..12 or a day outside the month). -/
def mkValidDate (y m d : ℕ) : Option ℕ :=
  if 1 ≤ y ∧ 1 ≤ m ∧ m ≤ 12 ∧ 1 ≤ d ∧ d ≤ daysInMonth y m then
    some (encodeDate y m d)
  else none

/-- The month alternatives of CPython's `_strptime` regex for `%m`,
`(1[0-2]|0[1-9]|[1-9])`, in alternation order, each with its unconsumed
remainder. -/
def parseMonthAlts (cs : List Char) : List (ℕ × List Char) :=
  (match cs with
   | '1' :: c :: r => if c = '0' ∨ c = '1' ∨ c = '2' then [(10 + digitVal c, r)] else []
   | _ => []) ++
  (match cs with
   | '0' :: c :: r => if isDigitCh c ∧ c ≠ '0' then [(digitVal c, r)] else []
   | _ => []) ++
  (match cs with
   | c :: r => if isDigitCh c ∧ c ≠ '0' then [(digitVal c, r)] else []
   | _ => [])

/-- The day alternatives of CPython's `_strptime` regex for `%d`,
`(3[01]|[12]\d|0[1-9]|[1-9])`, in alternation order. -/
def parseDayAlts (cs : List Char) : List (ℕ × List Char) :=
  (match cs with
   | '3' :: c :: r => if c = '0' ∨ c = '1' then [(30 + digitVal c, r)] else []
   | _ => []) ++
  (match cs with
   | c :: c2 :: r =>
     if (c = '1' ∨ c = '2') ∧ isDigitCh c2 then [(digitVal c * 10 + digitVal c2, r)]
     else []
   | _ => []) ++
  (match cs with
   | '0' :: c :: r => if isDigitCh c ∧ c ≠ '0' then [(digitVal c, r)] else []
   | _ => []) ++
  (match cs with
   | c :: r => if isDigitCh c ∧ c ≠ '0' then [(digitVal c, r)] else []
   | _ => [])

/-- Model of `datetime.strptime(s, "%Y-%m-%d").date()`: `%Y` is four digits,
`%m` and `%d` follow the `_strptime` alternations above, the whole string
must be consumed, and the resulting triple must be a real calendar date.
Regex backtracking across alternatives is modelled by trying the candidates
in alternation order with the full continuation; because the two-digit
alternatives are mutually exclusive on their first character and only
alternatives of equal length can consume the string to its end, this agrees
with the committed leftmost match followed by `datetime` validation. -/
def strptimeYmd (cs : List Char) : Option ℕ :=
  match cs with
  | y1 :: y2 :: y3 :: y4 :: '-' :: rest =>
    if isDigitCh y1 ∧ isDigitCh y2 ∧ isDigitCh y3 ∧ isDigitCh y4 then
      (parseMonthAlts rest).findSome? (fun pm =>
        match pm.2 with
        | '-' :: r2 =>
          (parseDayAlts r2).findSome? (fun pd =>
            if pd.2 = [] then mkValidDate (digitsVal [y1, y2, y3, y4]) pm.1 pd.1 else none)
        | _ => none)
    else none
  | _ => none

/-- A directory entry: filename and raw file contents. -/
abbrev FileEntry := String × String

/-- Append a file to its date's group, keeping dict insertion order of keys
(`by_date.setdefault(d, []).append(p)`). -/
def addToGroup (d : ℕ) (p : FileEntry) :
    List (ℕ × List FileEntry) → List (ℕ × List FileEntry)
  | [] => [(d, [p])]
  | (d0, ps) :: rest =>
    if d0 = d then (d0, ps ++ [p]) :: rest else (d0, ps) :: addToGroup d p rest

/-- One step of the grouping loop in `_scan_reports`: a file whose name does
not match `DATE_PATTERN`, or whose matched date string is rejected by
`strptime`, is skipped; otherwise it is appended to its date's group. -/
def scanStep (groups : List (ℕ × List FileEntry)) (p : FileEntry) :
    List (ℕ × List FileEntry) :=
  match splitReportName p.1.toList with
  | none => groups
  | some (_, dstr) =>
    match strptimeYmd dstr with
    | none => groups
    | some d => addToGroup d p groups

/-- Model of `_scan_reports`: fold the directory listing (the iteration order
of `glob("*.json")`, whose `.json` filter is subsumed by the pattern's own
anchored `.json` suffix) into date groups; dict keys keep first-insertion
order. -/
def _scan_reports (files : List FileEntry) : List (ℕ × List FileEntry) :=
  files.foldl scanStep []

/-- Model of `_latest_date`: `max(dates) if dates else None`. -/
def _latest_date (dates : List ℕ) : Option ℕ :=
  match dates with
  | [] => none
  | d :: ds => some (ds.foldl max d)

/-- Python dict membership / indexing on the grouped scan result. -/
def lookupGroup (groups : List (ℕ × List FileEntry)) (d : ℕ) : Option (List FileEntry) :=
  match groups with
  | [] => none
  | (d0, ps) :: rest => if d0 = d then some ps else lookupGroup rest d

/-- Sorting key for `sorted(grouped[target_date])`: same-directory `Path`
objects compare by filename string. -/
def fileLe (a b : FileEntry) : Prop := lexLe a.1.toList b.1.toList = true

instance : DecidableRel fileLe := fun a b => decEq (lexLe a.1.toList b.1.toList) true

/-- The error responses `get_reports` can produce.  `keyError` models the
uncaught `KeyError` a lookup of a date absent from `grouped` would raise (the
branches below never reach it); `validationError` models the uncaught
pydantic `ValidationError` raised while constructing a `ReportFile` whose
`content` is not a `Dict[str, Any]` — i.e. when a file's JSON parses but is
not an object.  Both uncaught exceptions surface as server errors (500). -/
inductive ApiError where
  | noReportFiles : ApiError
  | invalidDateFormat : ApiError
  | noReportsForDate (d : ℕ) : ApiError
  | noReportsAvailable : ApiError
  | readFailure (filename : String) : ApiError
  | validationError (filename : String) : ApiError
  | keyError : ApiError
deriving DecidableEq

/-- HTTP status of each error, per the `HTTPException`s in `get_reports` and
the framework's handling of uncaught exceptions. -/
def ApiError.status : ApiError → ℕ
  | .noReportFiles => 404
  | .invalidDateFormat => 400
  | .noReportsForDate _ => 404
  | .noReportsAvailable => 404
  | .readFailure _ => 500
  | .validationError _ => 500
  | .keyError => 500

/-- One `ReportFile` item of the response model. -/
structure ReportFile where
  filename : String
  ticker : String
  content : JsonVal

/-- The `ReportsResponse` model: the selected date, that date's files, and
all available dates. -/
structure ReportsResponse where
  date : ℕ
  files : List ReportFile
  available_dates : List ℕ

/-- The response-building loop of `get_reports`: over the date's files in
sorted order, re-match the name (the non-matching arm is unreachable for
scanned entries but kept, as in the source, via `continue`), parse the
contents with `json.load` — a 500 naming the file on a parse error — and
construct the `ReportFile` model, whose `content : Dict[str, Any]` pydantic
annotation rejects any parsed value that is not a JSON object (an uncaught
`ValidationError`, also a server error). -/
def collectFiles : List FileEntry → Except ApiError (List ReportFile)
  | [] => .ok []
  | p :: rest =>
    match splitReportName p.1.toList with
    | none => collectFiles rest
    | some (t, _) =>
      match jsonParse p.2.toList with
      | none => .error (.readFailure p.1)
      | some (.jobj fields) =>
        (collectFiles rest).map (fun fs => ⟨p.1, String.mk t, .jobj fields⟩ :: fs)
      | some _ => .error (.validationError p.1)

/-- The successful tail of `get_reports` once a target date is selected:
read that date's files in sorted order and assemble the response (the
`all_dates` list was computed as `sorted(grouped.keys())` by the caller). -/
def renderGroup (grouped : List (ℕ × List FileEntry)) (all_dates : List ℕ)
    (target : ℕ) : Except ApiError ReportsResponse :=
  match lookupGroup grouped target with
  | none => .error .keyError
  | some grp =>
    match collectFiles (List.insertionSort fileLe grp) with
    | .error e => .error e
    | .ok fs => .ok ⟨target, fs, all_dates⟩

/-- The no-`date` path of `get_reports`: pick the maximum of the sorted
available dates and render its group. -/
def selectLatest (grouped : List (ℕ × List FileEntry)) :
    Except ApiError ReportsResponse :=
  match _latest_date (List.insertionSort (· ≤ ·) (grouped.map Prod.fst)) with
  | none => .error .noReportsAvailable
  | some target =>
    renderGroup grouped (List.insertionSort (· ≤ ·) (grouped.map Prod.fst)) target

/-- Model of `GET /reports` (`src/api.py` lines 123-161).  The directory
listing is the explicit `files` argument; `date_param` is the optional `date`
query parameter.  The source guards the date branch with Python truthiness
(`if date_param:`), so a supplied but *empty* parameter (`?date=`) is treated
exactly like an omitted one — modelled by the `s = ""` test.
(`_scan_reports files` is re-evaluated instead of `let`-bound; the function
is pure, so this is the same value.) -/
def get_reports (files : List FileEntry) (date_param : Option String) :
    Except ApiError ReportsResponse :=
  if (_scan_reports files).isEmpty then .error .noReportFiles
  else
    match date_param with
    | some s =>
      if s = "" then selectLatest (_scan_reports files)
      else
        match strptimeYmd s.toList with
        | none => .error .invalidDateFormat
        | some target =>
          if (lookupGroup (_scan_reports files) target).isNone then
            .error (.noReportsForDate target)
          else
            renderGroup (_scan_reports files)
              (List.insertionSort (· ≤ ·) ((_scan_reports files).map Prod.fst)) target
    | none => selectLatest (_scan_reports files)

/-- A directory entry that `_scan_reports` files under date `d`: its name
matches `DATE_PATTERN` and the captured date string parses to `d`. -/
def entryMatches (p : FileEntry) (d : ℕ) : Prop :=
  ∃ t ds, splitReportName p.1.toList = some (t, ds) ∧ strptimeYmd ds = some d

/- ### `src/agents/agent.py` — the report writer in `Agent.act` -/

/-- The filename the orchestrating agent writes:
`f"reports/evaluation_{ticker}_{date}.json"`, with the ticker inserted
verbatim (the `reports/` directory prefix is kept implicit, as the API scans
names within that directory). -/
def agentFileName (ticker date : String) : String :=
  "evaluation_" ++ ticker ++ "_" ++ date ++ ".json"

/-- Escaping inside Python `repr` of a printable string: the backslash and
the chosen quote character are escaped.  (The `\n`-style escapes of
non-printable characters are not modelled; no theorem below depends on
them.) -/
def pyReprEscape (quote : Char) (s : List Char) : List Char :=
  s.foldr (fun c acc => if c = '\\' ∨ c = quote then '\\' :: c :: acc else c :: acc) []

/-- Python `repr` of a string: single quotes, unless the string contains a
single quote and no double quote. -/
def pyStrRepr (s : List Char) : List Char :=
  if Char.ofNat 39 ∈ s ∧ Char.ofNat 34 ∉ s then
    Char.ofNat 34 :: pyReprEscape (Char.ofNat 34) s ++ [Char.ofNat 34]
  else
    Char.ofNat 39 :: pyReprEscape (Char.ofNat 39) s ++ [Char.ofNat 39]

/-- The bytes `Agent.act` writes: `str(result)` where `result` is the dict
`ticker / date / news / financial_report / evaluation` in insertion order —
Python's `str` of a dict renders `repr(key): repr(value)` pairs joined by
`", "` inside braces.  The five values are modelled as strings (`news` can
also be the empty list `[]`; the theorems below only depend on the dict
rendering of the keys, which is the same in either case). -/
def agentReportFileContent (ticker date news financial_report evaluation : String) :
    List Char :=
  Char.ofNat 123 ::
    (pyStrRepr ("ticker".toList) ++ ':' :: ' ' :: pyStrRepr ticker.toList ++
     ',' :: ' ' :: pyStrRepr ("date".toList) ++ ':' :: ' ' :: pyStrRepr date.toList ++
     ',' :: ' ' :: pyStrRepr ("news".toList) ++ ':' :: ' ' :: pyStrRepr news.toList ++
     ',' :: ' ' :: pyStrRepr ("financial_report".toList) ++ ':' :: ' ' ::
       pyStrRepr financial_report.toList ++
     ',' :: ' ' :: pyStrRepr ("evaluation".toList) ++ ':' :: ' ' ::
       pyStrRepr evaluation.toList ++ [Char.ofNat 125])

/-! ## Theorems -/

/-- Claim C1: the relevance filter was claimed to return, when no score
reaches the 0.70 threshold, the 50 highest-scoring pairs.  The code instead
sorts the *already-empty* thresholded list in that branch and returns the
empty list: at the failing input of a single pair scoring 0.5, the claimed
result is that pair itself, but `get_score_threshold_or_top_k` returns `[]`. -/
theorem claim_C1_fallback_returns_empty :
    get_score_threshold_or_top_k [((0 : ℕ), (1 : ℚ)/2)] 50 (7/10) = [] ∧
    [((0 : ℕ), (1 : ℚ)/2)] ≠ ([] : List (ℕ × ℚ)) := by
  constructor
  · norm_num [get_score_threshold_or_top_k, List.filter, sortDescByScore]
  · simp

/-- Claim C2: the writer-then-reader round trip claimed for report files
fails for every Report Record — `Agent.act` serializes the record with
`str(result)`, whose Python-repr rendering opens with a single-quoted key
(`{'ticker': ...`), and the API's strict `json.load` rejects any such text.
No report file written by `Agent.act` is readable by `get_reports`. -/
theorem claim_C2_report_file_never_valid_json
    (ticker date news financial_report evaluation : String) :
    jsonParse (agentReportFileContent ticker date news financial_report evaluation) =
      none := rfl

/-- Claim C6: `timestamp_key(ttl)` is non-decreasing as time advances, and
two calls separated by less than `ttl` seconds that do not cross a
multiple-of-`ttl` boundary return the same integer, equal to
`floor(now / ttl)`. -/
theorem claim_C6_timestamp_key_windows (ttl t1 t2 : ℚ) (httl : 0 < ttl) :
    (t1 ≤ t2 → timestamp_key t1 ttl ≤ timestamp_key t2 ttl) ∧
    (t1 ≤ t2 → t2 - t1 < ttl → (¬ ∃ k : ℤ, t1 < (k : ℚ) * ttl ∧ (k : ℚ) * ttl ≤ t2) →
      timestamp_key t1 ttl = timestamp_key t2 ttl ∧ timestamp_key t1 ttl = ⌊t1 / ttl⌋) := by
  have mono : t1 ≤ t2 → timestamp_key t1 ttl ≤ timestamp_key t2 ttl := fun h12 =>
    Int.floor_le_floor (div_le_div_of_nonneg_right h12 httl.le)
  refine ⟨mono, fun h12 _hlt hnb => ⟨?_, rfl⟩⟩
  unfold timestamp_key
  by_contra hne
  have hlt : ⌊t1 / ttl⌋ < ⌊t2 / ttl⌋ := lt_of_le_of_ne (mono h12) hne
  apply hnb
  refine ⟨⌊t1 / ttl⌋ + 1, ?_, ?_⟩
  · have h2 : t1 / ttl < ((⌊t1 / ttl⌋ + 1 : ℤ) : ℚ) := by
      have := Int.lt_floor_add_one (t1 / ttl)
      push_cast
      linarith
    calc t1 = (t1 / ttl) * ttl := by field_simp
    _ < ((⌊t1 / ttl⌋ + 1 : ℤ) : ℚ) * ttl := mul_lt_mul_of_pos_right h2 httl
  · have h1 : ((⌊t1 / ttl⌋ + 1 : ℤ) : ℚ) ≤ ((⌊t2 / ttl⌋ : ℤ) : ℚ) := by exact_mod_cast hlt
    have h2 : ((⌊t2 / ttl⌋ : ℤ) : ℚ) ≤ t2 / ttl := Int.floor_le _
    calc ((⌊t1 / ttl⌋ + 1 : ℤ) : ℚ) * ttl ≤ (t2 / ttl) * ttl :=
          mul_le_mul_of_nonneg_right (le_trans h1 h2) httl.le
    _ = t2 := by field_simp

/-- Witness for claim C6 at `ttl = 10`, `t1 = 0`, `t2 = 5`: the window
`[0, 10)` is not crossed, and both keys are equal. -/
theorem claim_C6_timestamp_key_windows_witness :
    timestamp_key 0 10 ≤ timestamp_key 5 10 ∧ timestamp_key 0 10 = timestamp_key 5 10 := by
  have h := claim_C6_timestamp_key_windows 10 0 5 (by norm_num)
  refine ⟨h.1 (by norm_num), (h.2 (by norm_num) (by norm_num) ?_).1⟩
  rintro ⟨k, h1, h2⟩
  have hk0 : (0 : ℚ) < (k : ℚ) := by nlinarith
  have hkz : (0 : ℤ) < k := by exact_mod_cast hk0
  have hk2 : (1 : ℚ) ≤ (k : ℚ) := by exact_mod_cast (show (1 : ℤ) ≤ k by omega)
  nlinarith

/-- The row-wise extraction of two optional cells equals dropping the
incomplete rows and mapping the complete ones, in order. -/
theorem filterMap_two_cells (rows : List (List (Option String))) (si ni : ℕ) :
    rows.filterMap (fun r =>
      match cellAt r si, cellAt r ni with
      | some s, some n => some (s, n)
      | _, _ => none)
    = (rows.filter (fun r => (cellAt r si).isSome && (cellAt r ni).isSome)).map
        (fun r => ((cellAt r si).getD "", (cellAt r ni).getD "")) := by
  induction rows with
  | nil => rfl
  | cons r rs ih =>
    cases h1 : cellAt r si <;> cases h2 : cellAt r ni <;>
      simp [List.filterMap_cons, List.filter_cons, h1, h2, ih]

/-- Claim C5: with both `Symbol` and `Name` columns present,
`get_top_movers` drops exactly the rows with a missing `Symbol` or `Name`
cell and maps the remainder to `(ticker, name)` records in row order; a
table missing either column contributes an empty list without raising. -/
theorem claim_C5_get_top_movers_normalization (g l : PdTable) :
    ("Symbol" ∈ g.columns → "Name" ∈ g.columns →
      get_top_movers (some (g, l)) = some
        ⟨(g.rows.filter (fun r =>
             (cellAt r (g.columns.indexOf "Symbol")).isSome &&
             (cellAt r (g.columns.indexOf "Name")).isSome)).map
           (fun r => ((cellAt r (g.columns.indexOf "Symbol")).getD "",
                      (cellAt r (g.columns.indexOf "Name")).getD "")),
         moversSide l⟩) ∧
    ("Symbol" ∉ l.columns ∨ "Name" ∉ l.columns →
      get_top_movers (some (g, l)) = some ⟨moversSide g, []⟩) := by
  constructor
  · intro hs hn
    have hg : moversSide g = (g.rows.filter (fun r =>
        (cellAt r (g.columns.indexOf "Symbol")).isSome &&
        (cellAt r (g.columns.indexOf "Name")).isSome)).map
          (fun r => ((cellAt r (g.columns.indexOf "Symbol")).getD "",
                     (cellAt r (g.columns.indexOf "Name")).getD "")) := by
      unfold moversSide
      rw [if_pos ⟨hs, hn⟩, filterMap_two_cells]
    simp [get_top_movers, hg]
  · intro h
    have hl : moversSide l = [] := by
      unfold moversSide
      rw [if_neg]
      rintro ⟨h1, h2⟩
      tauto
    simp [get_top_movers, hl]

/-- Witness for claim C5 on a concrete gainers table with one complete row,
one row missing `Symbol`, one row missing `Name`, and a losers table lacking
both columns. -/
theorem claim_C5_get_top_movers_normalization_witness :
    get_top_movers (some (⟨["Symbol", "Name", "Price"],
        [[some "AAPL", some "Apple", some "1"],
         [none, some "Gone", some "2"],
         [some "NON", none, none]]⟩,
      ⟨["Sym"], [[some "Z"]]⟩)) =
      some ⟨[("AAPL", "Apple")], []⟩ := by
  have h := (claim_C5_get_top_movers_normalization
    ⟨["Symbol", "Name", "Price"],
        [[some "AAPL", some "Apple", some "1"],
         [none, some "Gone", some "2"],
         [some "NON", none, none]]⟩
    ⟨["Sym"], [[some "Z"]]⟩).1 (by decide) (by decide)
  rw [h]
  rfl

/-- Claim C7: every pool entry built by `_get_proxies` is an `ip:port` pair
that passed the IP and port validation with the port an integer strictly
between 0 and 65536; the pool holds at most 10 entries, deduplicated; and
`get_proxy` (a total function — it never raises) cycles through a non-empty
pool round-robin forever and returns the absent value forever on an empty
pool. -/
theorem claim_C7_proxy_pool (rows : List (List (List Char))) (ipOk : List Char → Bool) :
    (∀ e ∈ _get_proxies rows ipOk, ∃ ip port n,
        e = ip ++ ':' :: port ∧ ipOk ip = true ∧ pyParseInt port = some n ∧
        0 < n ∧ n < 65536) ∧
    (_get_proxies rows ipOk).length ≤ 10 ∧
    (_get_proxies rows ipOk).Nodup ∧
    (_get_proxies rows ipOk = [] → ∀ n, get_proxy (_get_proxies rows ipOk) n = none) ∧
    (_get_proxies rows ipOk ≠ [] → ∀ n,
      (∃ e ∈ _get_proxies rows ipOk, get_proxy (_get_proxies rows ipOk) n = some e) ∧
      get_proxy (_get_proxies rows ipOk) (n + (_get_proxies rows ipOk).length) =
        get_proxy (_get_proxies rows ipOk) n) := by
  refine ⟨?_, ?_, ?_, ?_, ?_⟩
  · intro e he
    unfold _get_proxies at he
    rw [List.mem_dedup] at he
    have he2 := List.take_subset 10 _ he
    rw [List.mem_filterMap] at he2
    obtain ⟨cols, _hmem, hf⟩ := he2
    rcases cols with _ | ⟨ip, _ | ⟨port, restc⟩⟩
    · simp at hf
    · simp at hf
    · have hf2 : (if (ipOk ip && _is_valid_port port) = true then
          some (ip ++ ':' :: port) else none) = some e := hf
      by_cases hc : (ipOk ip && _is_valid_port port) = true
      · rw [if_pos hc] at hf2
        rw [Bool.and_eq_true] at hc
        obtain ⟨h1, h2⟩ := hc
        cases hp : pyParseInt port with
        | none =>
          rw [_is_valid_port, hp] at h2
          exact absurd h2 (by simp)
        | some n =>
          rw [_is_valid_port, hp] at h2
          obtain ⟨hn1, hn2⟩ := of_decide_eq_true h2
          exact ⟨ip, port, n, (Option.some.inj hf2).symm, h1, hp, hn1, hn2⟩
      · rw [if_neg hc] at hf2
        exact absurd hf2 (by simp)
  · exact le_trans (List.Sublist.length_le (List.dedup_sublist _)) (List.length_take_le _ _)
  · exact List.nodup_dedup _
  · intro h n
    rw [h]
    simp [get_proxy]
  · intro h n
    have hl : 0 < (_get_proxies rows ipOk).length := List.length_pos.mpr h
    refine ⟨⟨(_get_proxies rows ipOk).get ⟨n % _, Nat.mod_lt _ hl⟩,
      List.get_mem _ _ _, ?_⟩, ?_⟩
    · simp [get_proxy, List.get?_eq_get (Nat.mod_lt _ hl)]
    · unfold get_proxy
      rw [Nat.add_mod_right]

/-- Witness for claim C7 on the scraped listing of the spec's test property:
one row with an invalid IP, one with an out-of-range port, and a duplicated
valid row; only `10.0.0.1:8080` survives and cycling returns it forever. -/
theorem claim_C7_proxy_pool_witness :
    (∃ ip port n, ("10.0.0.1:8080".toList) = ip ++ ':' :: port ∧
      (fun s => decide (s ≠ ("999.999.999.999".toList))) ip = true ∧
      pyParseInt port = some n ∧ 0 < n ∧ n < 65536) ∧
    (∃ e ∈ _get_proxies
        [["999.999.999.999".toList, "80".toList],
         ["10.0.0.1".toList, "99999".toList],
         ["10.0.0.1".toList, "8080".toList],
         ["10.0.0.1".toList, "8080".toList]]
        (fun s => decide (s ≠ ("999.999.999.999".toList))),
      get_proxy (_get_proxies
        [["999.999.999.999".toList, "80".toList],
         ["10.0.0.1".toList, "99999".toList],
         ["10.0.0.1".toList, "8080".toList],
         ["10.0.0.1".toList, "8080".toList]]
        (fun s => decide (s ≠ ("999.999.999.999".toList)))) 3 = some e) := by
  have h := claim_C7_proxy_pool
    [["999.999.999.999".toList, "80".toList],
     ["10.0.0.1".toList, "99999".toList],
     ["10.0.0.1".toList, "8080".toList],
     ["10.0.0.1".toList, "8080".toList]]
    (fun s => decide (s ≠ ("999.999.999.999".toList)))
  exact ⟨h.1 ("10.0.0.1:8080".toList) (by decide), (h.2.2.2.2 (by decide) 3).1⟩

/-- Claim C9: every cache-read problem in the `file_cache` wrapper is a
cache miss — absent or unreadable file, invalid JSON, a cache object whose
timestamp is missing, malformed or expired — and the wrapped function's
result is returned; a failed cache write is swallowed and the result is
returned all the same.  (The wrapper is a total function in this model:
no read path raises.) -/
theorem claim_C9_file_cache_read_errors_are_misses (mk : List Char → Option ℚ)
    (raw : Option (List Char)) (now ttl : ℚ) (fresh : JsonVal) (nowStr : List Char) :
    (raw = none → ∀ w, (file_cache_run mk raw now ttl fresh nowStr w).1 = fresh) ∧
    (∀ s, raw = some s → jsonParse s = none →
      ∀ w, (file_cache_run mk raw now ttl fresh nowStr w).1 = fresh) ∧
    (∀ s c, raw = some s → jsonParse s = some c → _is_valid mk c now ttl = false →
      ∀ w, (file_cache_run mk raw now ttl fresh nowStr w).1 = fresh) ∧
    (∀ s c tsStr, raw = some s → jsonParse s = some c →
      jsonGet c ("timestamp".toList) = some (.jstr tsStr) → mk tsStr = none →
      ∀ w, (file_cache_run mk raw now ttl fresh nowStr w).1 = fresh) ∧
    (∀ s c tsStr ts, raw = some s → jsonParse s = some c →
      jsonGet c ("timestamp".toList) = some (.jstr tsStr) → mk tsStr = some ts →
      ttl ≤ now - ts →
      ∀ w, (file_cache_run mk raw now ttl fresh nowStr w).1 = fresh) ∧
    (∀ w1 w2, (file_cache_run mk raw now ttl fresh nowStr w1).1 =
              (file_cache_run mk raw now ttl fresh nowStr w2).1) := by
  have h3 : ∀ s c, raw = some s → jsonParse s = some c →
      _is_valid mk c now ttl = false →
      ∀ w, (file_cache_run mk raw now ttl fresh nowStr w).1 = fresh := by
    intro s c hraw hparse hinv w
    subst hraw
    simp [file_cache_run, _load_cache, hparse, hinv]
  refine ⟨?_, ?_, h3, ?_, ?_, ?_⟩
  · intro hraw w
    subst hraw
    simp [file_cache_run, _load_cache]
  · intro s hraw hparse w
    subst hraw
    simp [file_cache_run, _load_cache, hparse]
  · intro s c tsStr hraw hparse hget hmk w
    refine h3 s c hraw hparse ?_ w
    unfold _is_valid
    rw [hget]
    show (match mk tsStr with
      | some u => decide (now - u < ttl)
      | _ => false) = false
    rw [hmk]
  · intro s c tsStr ts hraw hparse hget hmk hexp w
    refine h3 s c hraw hparse ?_ w
    unfold _is_valid
    rw [hget]
    show (match mk tsStr with
      | some u => decide (now - u < ttl)
      | _ => false) = false
    rw [hmk]
    exact decide_eq_false (not_lt.mpr hexp)
  · intro w1 w2
    cases hl : _load_cache raw
    · simp [file_cache_run, hl]
    · simp only [file_cache_run, hl]
      split <;> simp

/-- Witness for claim C9: an unparsable cache file and an absent cache file
both fall through to the wrapped function's result. -/
theorem claim_C9_file_cache_read_errors_are_misses_witness :
    (file_cache_run (fun _ => none) (some ("not json".toList)) 0 3600
        (.jbool true) [] false).1 = .jbool true ∧
    (file_cache_run (fun _ => none) none 0 3600 (.jbool true) [] true).1 =
      .jbool true := by
  constructor
  · exact (claim_C9_file_cache_read_errors_are_misses (fun _ => none)
      (some ("not json".toList)) 0 3600 (.jbool true) []).2.1
      ("not json".toList) rfl rfl false
  · exact (claim_C9_file_cache_read_errors_are_misses (fun _ => none)
      none 0 3600 (.jbool true) []).1 rfl true

/-- Totality of the filename order. -/
theorem lexLe_total (a b : List Char) : lexLe a b = true ∨ lexLe b a = true := by
  induction a generalizing b with
  | nil => exact Or.inl rfl
  | cons x xs ih =>
    cases b with
    | nil => exact Or.inr rfl
    | cons y ys =>
      by_cases h1 : x.toNat < y.toNat
      · exact Or.inl (by simp [lexLe, h1])
      · by_cases h2 : x.toNat = y.toNat
        · rcases ih ys with h | h
          · exact Or.inl (by simp [lexLe, h1, h2, h])
          · refine Or.inr ?_
            have h3 : ¬ y.toNat < x.toNat := by omega
            simp [lexLe, h3, h2.symm, h]
        · have h3 : y.toNat < x.toNat := by omega
          exact Or.inr (by simp [lexLe, h3])

/-- Transitivity of the filename order. -/
theorem lexLe_trans {a b c : List Char} (h1 : lexLe a b = true)
    (h2 : lexLe b c = true) : lexLe a c = true := by
  induction a generalizing b c with
  | nil => rfl
  | cons x xs ih =>
    cases b with
    | nil => simp [lexLe] at h1
    | cons y ys =>
      cases c with
      | nil => simp [lexLe] at h2
      | cons z zs =>
        by_cases hxy : x.toNat < y.toNat
        · by_cases hyz : y.toNat < z.toNat
          · simp [lexLe, show x.toNat < z.toNat by omega]
          · by_cases hyz2 : y.toNat = z.toNat
            · simp [lexLe, show x.toNat < z.toNat by omega]
            · simp [lexLe, hyz, hyz2] at h2
        · by_cases hxy2 : x.toNat = y.toNat
          · simp only [lexLe, if_neg hxy, if_pos hxy2] at h1
            by_cases hyz : y.toNat < z.toNat
            · simp [lexLe, show x.toNat < z.toNat by omega]
            · by_cases hyz2 : y.toNat = z.toNat
              · simp only [lexLe, if_neg hyz, if_pos hyz2] at h2
                have hxz : ¬ x.toNat < z.toNat := by omega
                simp [lexLe, hxz, show x.toNat = z.toNat by omega, ih h1 h2]
              · simp [lexLe, hyz, hyz2] at h2
          · simp [lexLe, hxy, hxy2] at h1

instance : IsTotal FileEntry fileLe := ⟨fun a b => lexLe_total a.1.toList b.1.toList⟩

instance : IsTrans FileEntry fileLe := ⟨fun _ _ _ => lexLe_trans⟩

/-- The left fold of `max` is a maximum of its inputs. -/
theorem foldl_max_spec (d : ℕ) (ds : List ℕ) :
    (ds.foldl max d = d ∨ ds.foldl max d ∈ ds) ∧ d ≤ ds.foldl max d ∧
    ∀ x ∈ ds, x ≤ ds.foldl max d := by
  induction ds generalizing d with
  | nil => simp
  | cons e es ih =>
    obtain ⟨hmem, hle, hub⟩ := ih (max d e)
    have hfold : (e :: es).foldl max d = es.foldl max (max d e) := rfl
    refine ⟨?_, ?_, ?_⟩
    · rcases hmem with h | h
      · rcases le_total d e with hde | hed
        · right
          rw [hfold, h, max_eq_right hde]
          exact List.mem_cons_self _ _
        · left
          rw [hfold, h, max_eq_left hed]
      · right
        exact List.mem_cons_of_mem _ (hfold ▸ h)
    · exact hfold ▸ le_trans (le_max_left d e) hle
    · intro x hx
      rcases List.mem_cons.mp hx with rfl | hx2
      · exact hfold ▸ le_trans (le_max_right d x) hle
      · exact hfold ▸ hub x hx2

/-- `max(dates)` is a member and an upper bound. -/
theorem latest_date_spec {l : List ℕ} {m : ℕ} (h : _latest_date l = some m) :
    m ∈ l ∧ ∀ x ∈ l, x ≤ m := by
  cases l with
  | nil => simp [_latest_date] at h
  | cons d ds =>
    have hm : ds.foldl max d = m := Option.some.inj h
    obtain ⟨hmem, hle, hub⟩ := foldl_max_spec d ds
    constructor
    · rcases hmem with h1 | h1
      · rw [← hm, h1]; exact List.mem_cons_self _ _
      · exact List.mem_cons_of_mem _ (hm ▸ h1)
    · intro x hx
      rcases List.mem_cons.mp hx with rfl | hx2
      · exact hm ▸ hle
      · exact hm ▸ hub x hx2

/-- A non-empty list has a maximum. -/
theorem latest_date_isSome {l : List ℕ} (h : l ≠ []) :
    ∃ m, _latest_date l = some m := by
  cases l with
  | nil => exact absurd rfl h
  | cons d ds => exact ⟨ds.foldl max d, rfl⟩

/-- `max` is invariant under permutation. -/
theorem latest_date_perm {l l' : List ℕ} (hp : l.Perm l') {m : ℕ}
    (h : _latest_date l = some m) : _latest_date l' = some m := by
  have hne' : l' ≠ [] := by
    intro he
    subst he
    rw [hp.eq_nil] at h
    simp [_latest_date] at h
  obtain ⟨m', hm'⟩ := latest_date_isSome hne'
  obtain ⟨hmem, hub⟩ := latest_date_spec h
  obtain ⟨hmem', hub'⟩ := latest_date_spec hm'
  rw [hm', le_antisymm (hub' m (hp.mem_iff.mp hmem)) (hub m' (hp.mem_iff.mpr hmem'))]

/-- Lookup after appending an entry to a group. -/
theorem lookupGroup_addToGroup (groups : List (ℕ × List FileEntry)) (dn : ℕ)
    (q : FileEntry) (d : ℕ) :
    lookupGroup (addToGroup dn q groups) d =
      if d = dn then some (((lookupGroup groups dn).getD []) ++ [q])
      else lookupGroup groups d := by
  induction groups with
  | nil =>
    by_cases h : d = dn
    · subst h
      simp [addToGroup, lookupGroup]
    · have h2 : ¬ dn = d := fun he => h he.symm
      simp [addToGroup, lookupGroup, h, h2]
  | cons g rest ih =>
    obtain ⟨d0, ps⟩ := g
    by_cases h0 : d0 = dn
    · subst h0
      by_cases h : d = d0
      · subst h
        simp [addToGroup, lookupGroup]
      · have h2 : ¬ d0 = d := fun he => h he.symm
        simp [addToGroup, lookupGroup, h, h2]
    · by_cases h : d = d0
      · subst h
        have h2 : ¬ dn = d := fun he => h0 he.symm
        simp [addToGroup, lookupGroup, h0, h2]
      · have h2 : ¬ d0 = d := fun he => h he.symm
        simp [addToGroup, lookupGroup, h0, h2, ih]

/-- `scanStep` on a file whose name does not match the pattern. -/
theorem scanStep_none {q : FileEntry} (hsplit : splitReportName q.1.toList = none)
    (groups : List (ℕ × List FileEntry)) : scanStep groups q = groups := by
  unfold scanStep
  rw [hsplit]

/-- `scanStep` on a file whose matched date string fails `strptime`. -/
theorem scanStep_baddate {q : FileEntry} {t ds : List Char}
    (hsplit : splitReportName q.1.toList = some (t, ds))
    (hdate : strptimeYmd ds = none)
    (groups : List (ℕ × List FileEntry)) : scanStep groups q = groups := by
  unfold scanStep
  rw [hsplit]
  show (match strptimeYmd ds with
    | none => groups
    | some d => addToGroup d q groups) = groups
  rw [hdate]

/-- `scanStep` on a file that matches with a valid date. -/
theorem scanStep_some {q : FileEntry} {t ds : List Char} {dn : ℕ}
    (hsplit : splitReportName q.1.toList = some (t, ds))
    (hdate : strptimeYmd ds = some dn)
    (groups : List (ℕ × List FileEntry)) :
    scanStep groups q = addToGroup dn q groups := by
  unfold scanStep
  rw [hsplit]
  show (match strptimeYmd ds with
    | none => groups
    | some d => addToGroup d q groups) = addToGroup dn q groups
  rw [hdate]

/-- Every file placed in a date group by the scan matches the naming pattern
with a date string parsing to that group's date. -/
theorem scan_foldl_sound (files : List FileEntry) :
    ∀ groups0,
      (∀ d grp, lookupGroup groups0 d = some grp → ∀ p ∈ grp, entryMatches p d) →
      ∀ d grp, lookupGroup (files.foldl scanStep groups0) d = some grp →
        ∀ p ∈ grp, entryMatches p d := by
  induction files with
  | nil => exact fun g0 h => h
  | cons q fs ih =>
    intro g0 h0
    rw [List.foldl_cons]
    apply ih
    intro d grp hlk p hp
    cases hsplit : splitReportName q.1.toList with
    | none =>
      rw [scanStep_none hsplit] at hlk
      exact h0 d grp hlk p hp
    | some td =>
      obtain ⟨t, ds⟩ := td
      cases hdate : strptimeYmd ds with
      | none =>
        rw [scanStep_baddate hsplit hdate] at hlk
        exact h0 d grp hlk p hp
      | some dn =>
        rw [scanStep_some hsplit hdate] at hlk
        rw [lookupGroup_addToGroup] at hlk
        by_cases hd : d = dn
        · rw [if_pos hd] at hlk
          have hgrp := Option.some.inj hlk
          rw [← hgrp] at hp
          rcases List.mem_append.mp hp with hp1 | hp2
          · cases hold : lookupGroup g0 dn with
            | none => rw [hold] at hp1; simp at hp1
            | some grp0 =>
              rw [hold] at hp1
              subst hd
              exact h0 _ grp0 hold p hp1
          · have hpq : p = q := by simpa using hp2
            subst hpq
            exact ⟨t, ds, hsplit, hd ▸ hdate⟩
        · rw [if_neg hd] at hlk
          exact h0 d grp hlk p hp

/-- The concrete form of `scan_foldl_sound` for `_scan_reports`. -/
theorem scan_sound {files : List FileEntry} {d : ℕ} {grp : List FileEntry}
    (h : lookupGroup (_scan_reports files) d = some grp) :
    ∀ p ∈ grp, entryMatches p d :=
  scan_foldl_sound files [] (by intro d0 g0 h0; simp [lookupGroup] at h0) d grp h

/-- The response-file loop succeeds on a list of matching entries whose
contents parse to JSON objects, and returns them in order. -/
theorem collectFiles_ok (l : List FileEntry)
    (h : ∀ p ∈ l, (∃ t ds, splitReportName p.1.toList = some (t, ds)) ∧
         ∃ fields, jsonParse p.2.toList = some (.jobj fields)) :
    ∃ fs, collectFiles l = .ok fs ∧ fs.map (fun f => f.filename) = l.map Prod.fst := by
  induction l with
  | nil => exact ⟨[], rfl, rfl⟩
  | cons p rest ih =>
    obtain ⟨⟨t, ds, hsplit⟩, fields, hv⟩ := h p (List.mem_cons_self _ _)
    obtain ⟨fs, hfs, hmap⟩ := ih (fun q hq => h q (List.mem_cons_of_mem _ hq))
    have hsplit2 : splitReportName p.1.data = some (t, ds) := hsplit
    have hv2 : jsonParse p.2.data = some (.jobj fields) := hv
    refine ⟨⟨p.1, String.mk t, .jobj fields⟩ :: fs, ?_, ?_⟩
    · simp [collectFiles, hsplit2, hv2, hfs, Except.map]
    · simp [hmap]

/-- A file whose name does not match the pattern, or whose matched date
string fails `strptime`, leaves the scan state unchanged. -/
theorem scanStep_skip {p : FileEntry}
    (h : ∀ t ds, splitReportName p.1.toList = some (t, ds) → strptimeYmd ds = none)
    (groups : List (ℕ × List FileEntry)) : scanStep groups p = groups := by
  cases hs : splitReportName p.1.toList with
  | none => exact scanStep_none hs groups
  | some td =>
    obtain ⟨t, ds⟩ := td
    exact scanStep_baddate hs (h t ds hs) groups

/-- Inserting a skipped file anywhere in the directory listing does not
change the scan result. -/
theorem scan_insert_skip (fs1 fs2 : List FileEntry) (p : FileEntry)
    (h : ∀ t ds, splitReportName p.1.toList = some (t, ds) → strptimeYmd ds = none) :
    _scan_reports (fs1 ++ p :: fs2) = _scan_reports (fs1 ++ fs2) := by
  unfold _scan_reports
  rw [List.foldl_append, List.foldl_append, List.foldl_cons, scanStep_skip h]

/-- Claim C4, counterexample to the claim as stated: a supplied but empty
`date` parameter (`?date=`) is not of the form `YYYY-MM-DD` (`strptime`
rejects it), yet the endpoint does not fail with a bad-request error — the
truthiness guard `if date_param:` treats the falsy empty string as an omitted
parameter and the request succeeds with the latest date's files. -/
theorem claim_C4_supplied_empty_date_counterexample :
    strptimeYmd ("".toList) = none ∧
    ∃ resp, get_reports [("evaluation_AAPL_2024-01-01.json", "\x7b\x7d")] (some "") =
      .ok resp :=
  ⟨rfl, ⟨_, rfl⟩⟩

/-- Claim C4 as amended: the error cases of `GET /reports`, in the order the
code tests them: an empty scan is a 404 "no report files" regardless of the
query; with files present, a supplied *non-empty* `date` parameter that
`strptime` rejects is a 400 "invalid date format"; a parsable date with no
group is a 404 "no reports for date".  Each failure is an error response,
never a files payload; a supplied empty `date` parameter is treated exactly
as an omitted one. -/
theorem claim_C4_reports_error_cases (files : List FileEntry) :
    (_scan_reports files = [] → ∀ dp, get_reports files dp = .error .noReportFiles) ∧
    (_scan_reports files ≠ [] → ∀ s, s ≠ "" → strptimeYmd s.toList = none →
      get_reports files (some s) = .error .invalidDateFormat) ∧
    (_scan_reports files ≠ [] → ∀ s d, strptimeYmd s.toList = some d →
      lookupGroup (_scan_reports files) d = none →
      get_reports files (some s) = .error (.noReportsForDate d)) ∧
    (get_reports files (some "") = get_reports files none) ∧
    (ApiError.noReportFiles.status = 404 ∧ ApiError.invalidDateFormat.status = 400 ∧
      ∀ d, (ApiError.noReportsForDate d).status = 404) := by
  refine ⟨?_, ?_, ?_, ?_, rfl, rfl, fun _ => rfl⟩
  · intro h dp
    simp [get_reports, h]
  · intro h s hne hs
    have hs2 : strptimeYmd s.data = none := hs
    cases hsc : _scan_reports files with
    | nil => exact absurd hsc h
    | cons a as => simp [get_reports, hsc, hne, hs2]
  · intro h s d hs hl
    have hne : ¬ s = "" := by
      intro he
      rw [he, show strptimeYmd ("".toList) = none from rfl] at hs
      exact Option.noConfusion hs
    have hs2 : strptimeYmd s.data = some d := hs
    cases hsc : _scan_reports files with
    | nil => exact absurd hsc h
    | cons a as =>
      rw [hsc] at hl
      simp [get_reports, hsc, hne, hs2, hl]
  · unfold get_reports
    split
    · rfl
    · rfl

/-- Witness for claim C4: an empty reports directory, a malformed non-empty
date, a well-formed date with no files, and the empty-equals-omitted case. -/
theorem claim_C4_reports_error_cases_witness :
    get_reports [] none = .error .noReportFiles ∧
    get_reports [("evaluation_AAPL_2024-01-01.json", "\x7b\x7d")] (some "bogus") =
      .error .invalidDateFormat ∧
    get_reports [("evaluation_AAPL_2024-01-01.json", "\x7b\x7d")] (some "2024-01-03") =
      .error (.noReportsForDate 20240103) ∧
    get_reports [("evaluation_AAPL_2024-01-01.json", "\x7b\x7d")] (some "") =
      get_reports [("evaluation_AAPL_2024-01-01.json", "\x7b\x7d")] none :=
  ⟨(claim_C4_reports_error_cases []).1 rfl none,
   (claim_C4_reports_error_cases [("evaluation_AAPL_2024-01-01.json", "\x7b\x7d")]).2.1
     (by decide) "bogus" (by decide) rfl,
   (claim_C4_reports_error_cases [("evaluation_AAPL_2024-01-01.json", "\x7b\x7d")]).2.2.1
     (by decide) "2024-01-03" 20240103 rfl (by decide),
   (claim_C4_reports_error_cases [("evaluation_AAPL_2024-01-01.json", "\x7b\x7d")]).2.2.2.1⟩

/-- Claim C10: a file whose name has the right shape but whose date portion
is not a real calendar date is silently invisible: inserting it anywhere in
the directory leaves the scan — and therefore every `GET /reports` response,
success or error — unchanged. -/
theorem claim_C10_invalid_calendar_date_skipped (name : String) (t ds : List Char)
    (h1 : splitReportName name.toList = some (t, ds)) (h2 : strptimeYmd ds = none) :
    (∀ c fs1 fs2, _scan_reports (fs1 ++ (name, c) :: fs2) = _scan_reports (fs1 ++ fs2)) ∧
    (∀ c fs1 fs2 dp,
      get_reports (fs1 ++ (name, c) :: fs2) dp = get_reports (fs1 ++ fs2) dp) := by
  have hskip : ∀ c : String, ∀ t0 ds0,
      splitReportName ((name, c) : FileEntry).1.toList = some (t0, ds0) →
      strptimeYmd ds0 = none := by
    intro c t0 ds0 hsp
    rw [h1] at hsp
    have hp := Option.some.inj hsp
    rw [Prod.mk.injEq] at hp
    rw [← hp.2]
    exact h2
  constructor
  · intro c fs1 fs2
    exact scan_insert_skip fs1 fs2 (name, c) (hskip c)
  · intro c fs1 fs2 dp
    have hs := scan_insert_skip fs1 fs2 (name, c) (hskip c)
    simp only [get_reports, hs]

/-- Witness for claim C10: the month-13, day-45 file is invisible and leaves
the response for the remaining file untouched. -/
theorem claim_C10_invalid_calendar_date_skipped_witness :
    _scan_reports [("evaluation_AAPL_2024-13-45.json", "x"),
        ("evaluation_MSFT_2024-01-02.json", "\x7b\x7d")] =
      _scan_reports [("evaluation_MSFT_2024-01-02.json", "\x7b\x7d")] ∧
    get_reports [("evaluation_AAPL_2024-13-45.json", "x"),
        ("evaluation_MSFT_2024-01-02.json", "\x7b\x7d")] none =
      get_reports [("evaluation_MSFT_2024-01-02.json", "\x7b\x7d")] none := by
  have h := claim_C10_invalid_calendar_date_skipped "evaluation_AAPL_2024-13-45.json"
    ("AAPL".toList) ("2024-13-45".toList) rfl rfl
  exact ⟨h.1 "x" [] [("evaluation_MSFT_2024-01-02.json", "\x7b\x7d")],
         h.2 "x" [] [("evaluation_MSFT_2024-01-02.json", "\x7b\x7d")] none⟩

/-- A digit-shaped date string has exactly 10 characters. -/
theorem isDateShape_length {l : List Char} (h : isDateShape l = true) :
    l.length = 10 := by
  unfold isDateShape at h
  split at h
  · simp_all
  · exact absurd h (by simp)

/-- `agentFileName` as a character list. -/
theorem agentFileName_toList (ticker dt : String) :
    (agentFileName ticker dt).toList =
      ("evaluation_".toList) ++ (ticker.toList ++ '_' :: (dt.toList ++ (".json".toList))) := by
  simp [agentFileName, String.toList, String.data_append]

/-- Evaluation of the filename pattern on a structurally decomposed name with
a 10-character date portion: the positions are forced by the lengths, so the
match succeeds exactly when the ticker portion is a non-empty `[A-Z0-9]` run
and the date portion is digit-shaped. -/
theorem splitReportName_eval (tk dt5 : List Char) (hdt : dt5.length = 10) :
    splitReportName (("evaluation_".toList) ++ (tk ++ '_' :: (dt5 ++ (".json".toList)))) =
      if tk ≠ [] ∧ tk.all isTickerChar = true ∧ isDateShape dt5 = true then
        some (tk, dt5)
      else none := by
  have h11 : ("evaluation_".toList).length = 11 := rfl
  have hrest : (tk ++ '_' :: (dt5 ++ (".json".toList))).length = tk.length + 16 := by
    simp [hdt]
  unfold splitReportName
  rw [List.take_left' h11, List.drop_left' h11, if_pos rfl, hrest]
  by_cases htk : tk = []
  · subst htk
    rw [if_neg (by simp)]
    simp
  · have hpos : 0 < tk.length := List.length_pos.mpr htk
    rw [if_pos (by omega : 17 ≤ tk.length + 16)]
    have hsub : tk.length + 16 - 16 = tk.length := by omega
    rw [hsub, List.take_left, List.drop_left]
    show (if (dt5 ++ (".json".toList)).drop 10 = (".json".toList) ∧ tk ≠ [] ∧
        tk.all isTickerChar = true ∧ isDateShape ((dt5 ++ (".json".toList)).take 10) = true
      then some (tk, (dt5 ++ (".json".toList)).take 10) else none) = _
    rw [List.take_left' hdt, List.drop_left' hdt]
    by_cases hc : tk.all isTickerChar = true ∧ isDateShape dt5 = true
    · rw [if_pos ⟨rfl, htk, hc.1, hc.2⟩, if_pos ⟨htk, hc.1, hc.2⟩]
    · rw [if_neg (by tauto), if_neg (by tauto)]

/-- Claim C8: every filename the report scan accepts has a non-empty ticker
portion drawn from `[A-Z0-9]` only; consequently a report the agent writes
verbatim for a ticker containing any other character (for instance a
lowercase letter or a dot) matches nothing and is invisible to every
`GET /reports` response, whatever else the directory holds. -/
theorem claim_C8_ticker_charset_filter :
    (∀ name t ds, splitReportName name = some (t, ds) →
      t ≠ [] ∧ t.all isTickerChar = true) ∧
    (∀ ticker dt, isDateShape dt.toList = true →
      (∃ c ∈ ticker.toList, isTickerChar c = false) →
      splitReportName (agentFileName ticker dt).toList = none ∧
      ∀ files d grp, lookupGroup (_scan_reports files) d = some grp →
        ∀ p ∈ grp, p.1 ≠ agentFileName ticker dt) := by
  constructor
  · intro name t ds h
    unfold splitReportName at h
    split at h
    · split at h
      · split at h
        · split at h
          next hcond =>
            obtain ⟨hj, hne2, hall, hshape⟩ := hcond
            have hp := Option.some.inj h
            rw [Prod.mk.injEq] at hp
            rw [← hp.1]
            exact ⟨hne2, hall⟩
          next => exact absurd h (by simp)
        · exact absurd h (by simp)
      · exact absurd h (by simp)
    · exact absurd h (by simp)
  · intro ticker dt hshape hbad
    have hlen10 : dt.toList.length = 10 := isDateShape_length hshape
    have hnone : splitReportName (agentFileName ticker dt).toList = none := by
      rw [agentFileName_toList, splitReportName_eval _ _ hlen10, if_neg]
      rintro ⟨hne2, hall, _⟩
      obtain ⟨c, hc, hcbad⟩ := hbad
      rw [List.all_eq_true] at hall
      exact absurd (hall c hc) (by simp [hcbad])
    refine ⟨hnone, ?_⟩
    intro files d grp hlk p hp hpname
    obtain ⟨t0, ds0, hsp, _⟩ := scan_sound hlk p hp
    rw [hpname, hnone] at hsp
    exact Option.noConfusion hsp

/-- Witness for claim C8: `AAPL` passes the filter; the file the agent would
write for ticker `brk.b` matches nothing and is absent from the date group
of another, visible file. -/
theorem claim_C8_ticker_charset_filter_witness :
    ("AAPL".toList ≠ [] ∧ "AAPL".toList.all isTickerChar = true) ∧
    splitReportName (agentFileName "brk.b" "2024-01-01").toList = none ∧
    ∀ p ∈ [(("evaluation_AAPL_2024-01-01.json" : String), ("x" : String))],
      p.1 ≠ agentFileName "brk.b" "2024-01-01" := by
  have h1 := claim_C8_ticker_charset_filter.1 ("evaluation_AAPL_2024-01-01.json".toList)
    ("AAPL".toList) ("2024-01-01".toList) (by decide)
  have h2 := claim_C8_ticker_charset_filter.2 "brk.b" "2024-01-01" (by decide)
    ⟨'b', by decide, by decide⟩
  exact ⟨h1, h2.1,
    h2.2 [("evaluation_AAPL_2024-01-01.json", "x")] 20240101
      [("evaluation_AAPL_2024-01-01.json", "x")] (by decide)⟩

/-- Claim C3: with at least one discovered report file, `GET /reports`
without a `date` parameter succeeds with the maximum embedded date, that
date's files sorted by filename (exactly those files), and all embedded
dates in ascending order — provided each of that date's files parses as a
JSON object, as a well-formed Report Record does (a parse failure, or a
non-object value rejected by the `Dict[str, Any]` model validation, is a
separate 500 path). -/
theorem claim_C3_latest_date_selection (files : List FileEntry)
    (hne : _scan_reports files ≠ [])
    (mx : ℕ) (hmx : _latest_date ((_scan_reports files).map Prod.fst) = some mx)
    (grp : List FileEntry) (hg : lookupGroup (_scan_reports files) mx = some grp)
    (hread : ∀ p ∈ grp, ∃ fields, jsonParse p.2.toList = some (.jobj fields)) :
    ∃ resp, get_reports files none = .ok resp ∧
      resp.date = mx ∧
      (mx ∈ (_scan_reports files).map Prod.fst ∧
        ∀ d ∈ (_scan_reports files).map Prod.fst, d ≤ mx) ∧
      resp.available_dates.Perm ((_scan_reports files).map Prod.fst) ∧
      List.Sorted (· ≤ ·) resp.available_dates ∧
      (resp.files.map (fun f => f.filename)).Perm (grp.map Prod.fst) ∧
      List.Pairwise (fun a b => lexLe a.toList b.toList = true)
        (resp.files.map (fun f => f.filename)) := by
  have hperm : (List.insertionSort (· ≤ ·) ((_scan_reports files).map Prod.fst)).Perm
      ((_scan_reports files).map Prod.fst) :=
    List.perm_insertionSort _ _
  have hmx2 : _latest_date
      (List.insertionSort (· ≤ ·) ((_scan_reports files).map Prod.fst)) = some mx :=
    latest_date_perm hperm.symm hmx
  have hmatch : ∀ p ∈ List.insertionSort fileLe grp,
      (∃ t ds, splitReportName p.1.toList = some (t, ds)) ∧
      ∃ fields, jsonParse p.2.toList = some (.jobj fields) := by
    intro p hp
    have hp2 : p ∈ grp := (List.perm_insertionSort fileLe grp).mem_iff.mp hp
    obtain ⟨t, ds, h1, _⟩ := scan_sound hg p hp2
    exact ⟨⟨t, ds, h1⟩, hread p hp2⟩
  obtain ⟨fsr, hcf, hcfmap⟩ := collectFiles_ok _ hmatch
  have hie : (_scan_reports files).isEmpty = false := by
    cases hsc : _scan_reports files with
    | nil => exact absurd hsc hne
    | cons a as => rfl
  refine ⟨ReportsResponse.mk mx fsr
      (List.insertionSort (· ≤ ·) ((_scan_reports files).map Prod.fst)),
    ?_, rfl, latest_date_spec hmx, hperm, List.sorted_insertionSort _ _, ?_, ?_⟩
  · unfold get_reports
    rw [hie]
    show selectLatest (_scan_reports files) = _
    unfold selectLatest
    rw [hmx2]
    show renderGroup (_scan_reports files)
      (List.insertionSort (· ≤ ·) ((_scan_reports files).map Prod.fst)) mx = _
    unfold renderGroup
    rw [hg]
    show (match collectFiles (List.insertionSort fileLe grp) with
      | .error e => Except.error e
      | .ok fs => Except.ok (ReportsResponse.mk mx fs
          (List.insertionSort (· ≤ ·) ((_scan_reports files).map Prod.fst)))) = _
    rw [hcf]
  · rw [hcfmap]
    exact (List.perm_insertionSort fileLe grp).map Prod.fst
  · rw [hcfmap]
    have hsorted : List.Sorted fileLe (List.insertionSort fileLe grp) :=
      List.sorted_insertionSort fileLe grp
    rw [List.pairwise_map]
    exact hsorted

/-- Witness for claim C3 on a directory with one file each for 2024-01-01
and 2024-01-02. -/
theorem claim_C3_latest_date_selection_witness :
    ∃ resp,
      get_reports [("evaluation_AAPL_2024-01-01.json", "\x7b\x7d"),
        ("evaluation_MSFT_2024-01-02.json", "\x7b\x7d")] none = .ok resp ∧
      resp.date = 20240102 ∧
      (20240102 ∈ (_scan_reports [("evaluation_AAPL_2024-01-01.json", "\x7b\x7d"),
          ("evaluation_MSFT_2024-01-02.json", "\x7b\x7d")]).map Prod.fst ∧
        ∀ d ∈ (_scan_reports [("evaluation_AAPL_2024-01-01.json", "\x7b\x7d"),
          ("evaluation_MSFT_2024-01-02.json", "\x7b\x7d")]).map Prod.fst, d ≤ 20240102) ∧
      resp.available_dates.Perm
        ((_scan_reports [("evaluation_AAPL_2024-01-01.json", "\x7b\x7d"),
          ("evaluation_MSFT_2024-01-02.json", "\x7b\x7d")]).map Prod.fst) ∧
      List.Sorted (· ≤ ·) resp.available_dates ∧
      (resp.files.map (fun f => f.filename)).Perm
        ([("evaluation_MSFT_2024-01-02.json", "\x7b\x7d")].map Prod.fst) ∧
      List.Pairwise (fun a b => lexLe a.toList b.toList = true)
        (resp.files.map (fun f => f.filename)) :=
  claim_C3_latest_date_selection
    [("evaluation_AAPL_2024-01-01.json", "\x7b\x7d"),
     ("evaluation_MSFT_2024-01-02.json", "\x7b\x7d")]
    (by decide) 20240102 (by decide)
    [("evaluation_MSFT_2024-01-02.json", "\x7b\x7d")] (by decide)
    (by
      intro p hp
      rw [List.mem_singleton] at hp
      subst hp
      exact ⟨[], rfl⟩)
